import Mathlib

/-!
Verification of the conversational payment-agent core (`src/agent.py`,
`src/call.py`): validators, the shared `CallState` record, the stage
transition machine, confirmation-number generation and the retry wrappers.

Python strings are modelled as `String`/`List Char` restricted to the ASCII
behaviour of the regexes involved (`\d`, `\s`, `\w` are modelled by their
ASCII classes; the source strings these validators receive are ASCII).
-/

/-! ## Character classes (ASCII models of Python `\d`, `\s`, `\w`) -/

/-- ASCII decimal digit, the model of the regex class `\d`. -/
def isDigitC (c : Char) : Bool := 48 ≤ c.toNat && c.toNat ≤ 57

/-- ASCII whitespace, the model of the regex class `\s`
(space, tab, newline, carriage return, vertical tab, form feed). -/
def isSpaceC (c : Char) : Bool :=
  c.toNat = 32 || c.toNat = 9 || c.toNat = 10 || c.toNat = 13 || c.toNat = 11 || c.toNat = 12

/-- ASCII word character, the model of the regex class `\w`. -/
def isWordC (c : Char) : Bool :=
  isDigitC c || (97 ≤ c.toNat && c.toNat ≤ 122) || (65 ≤ c.toNat && c.toNat ≤ 90) || c.toNat = 95

theorem word_of_digit {c : Char} (h : isDigitC c = true) : isWordC c = true := by
  simp [isWordC, h]

theorem not_digit_of_not_word {c : Char} (h : isWordC c = false) : isDigitC c = false := by
  by_cases hd : isDigitC c = true
  · simp [isWordC, hd] at h
  · simpa using hd

/-! ## Gregorian calendar conversion (model of `time.strftime` on a Unix timestamp)

`civilFromDays` is the standard civil-from-days algorithm computing the
Gregorian (year, month, day) for a day count since the epoch 1970-01-01. -/

/-- Convert a day count since 1970-01-01 to a Gregorian (year, month, day). -/
def civilFromDays (z : Nat) : Nat × Nat × Nat :=
  let doe := (z + 719468) % 146097
  let era := (z + 719468) / 146097
  let yoe := (doe - doe / 1460 + doe / 36524 - doe / 146096) / 365
  let doy := doe - (365 * yoe + yoe / 4 - yoe / 100)
  let mp := (5 * doy + 2) / 153
  let d := doy - (153 * mp + 2) / 5 + 1
  let m := if mp < 10 then mp + 3 else mp - 9
  let y := yoe + era * 400
  (if m ≤ 2 then y + 1 else y, m, d)

theorem civilFromDays_digit_bounds (z : Nat) (hz : z ≤ 2786859) :
    1000 ≤ (civilFromDays z).1 ∧ (civilFromDays z).1 ≤ 9999 ∧
    (civilFromDays z).2.1 ≤ 99 ∧ (civilFromDays z).2.2 ≤ 99 := by
  unfold civilFromDays
  dsimp only
  set doe := (z + 719468) % 146097 with hdoe_def
  set era := (z + 719468) / 146097 with hera_def
  set q1 := doe / 1460 with hq1_def
  set q2 := doe / 36524 with hq2_def
  set q3 := doe / 146096 with hq3_def
  set n := doe - q1 + q2 - q3 with hn_def
  set yoe := n / 365 with hyoe_def
  set i4 := yoe / 4 with hi4_def
  set i100 := yoe / 100 with hi100_def
  set doy := doe - (365 * yoe + i4 - i100) with hdoy_def
  set mp := (5 * doy + 2) / 153 with hmp_def
  set q5 := (153 * mp + 2) / 5 with hq5_def
  have hdoe : doe < 146097 := by omega
  have hera : 4 ≤ era ∧ era ≤ 23 := by omega
  have hq1u : q1 ≤ 100 := by omega
  have hq3u : q3 ≤ 1 := by omega
  have hq2u : q2 ≤ 4 := by omega
  have hyoeu : yoe ≤ 400 := by omega
  have hi100u : i100 ≤ 4 := by omega
  have hyoel : 365 * yoe ≤ n := by omega
  have hdoyu : doy ≤ 469 := by omega
  have hmpu : mp ≤ 15 := by omega
  have hdu : doy - q5 + 1 ≤ 99 := by omega
  split <;> split <;> omega

example : civilFromDays 0 = (1970, 1, 1) := by decide
example : civilFromDays 19738 = (2024, 1, 16) := by decide

/-! ## Phone-number validation (`validate_phone_number`, pattern `^\+[1-9]\d{1,14}$`)

Python's `$` matches at the end of the string or just before a single
trailing newline; `pyAnchoredMatch` reproduces this for fully anchored
patterns whose body cannot match a newline (true for all bodies used here,
which consist of digit classes and literal `+`/`-`). -/

/-- Body of the phone pattern `\+[1-9]\d{1,14}` matched against a whole string. -/
def phoneBody (cs : List Char) : Bool :=
  match cs with
  | '+' :: d :: rest =>
      (49 ≤ d.toNat && d.toNat ≤ 57) && (1 ≤ rest.length && rest.length ≤ 14) &&
        rest.all isDigitC
  | _ => false

/-- Model of Python `re.match` against `^body$`: the body matches the whole
string, or the whole string minus a single trailing newline. -/
def pyAnchoredMatch (body : List Char → Bool) (s : String) : Bool :=
  body s.data ||
    (match s.data.getLast? with
     | some c => c = '\n' && body s.data.dropLast
     | none => false)

/-- `validate_phone_number` from `agent.py` (identical in `call.py`). -/
def validate_phone_number (phone : String) : Bool := pyAnchoredMatch phoneBody phone

/-- The phone format as worded by the spec: a leading `+`, then a digit 1-9,
then 1 to 14 further digits (total digits 2-15). -/
def specPhoneFormat (s : String) : Bool :=
  match s.data with
  | '+' :: d :: rest =>
      (49 ≤ d.toNat && d.toNat ≤ 57) && (1 ≤ rest.length && rest.length ≤ 14) &&
        rest.all isDigitC
  | _ => false

example : validate_phone_number "+14155552671" = true := by decide
example : validate_phone_number "14155552671" = false := by decide
example : validate_phone_number "+0123456789" = false := by decide
example : validate_phone_number "+12\n" = true := by decide
example : specPhoneFormat "+12\n" = false := by decide

/-! ## Payment-amount validation (`validate_payment_amount`)

The source strips `$` and `,`, parses with Python `float(...)` and accepts
iff `0 < x <= 50000`; parse failures (`ValueError`) yield `false`.
`pyFloatParse` models the accepted grammar of `float` on ASCII input
(optional surrounding whitespace, sign, digits with underscores between
them, optional point, optional exponent) with the exact decimal value.
The words `inf`/`nan` are modelled as parse failures: in the source they
parse but fail the range test, so `validate_payment_amount` agrees. -/

/-- Maximal run of digits allowing single underscores between digits
(Python numeric-literal grouping); returns the digits and the rest. -/
def duGo : List Char → List Char × List Char
  | [] => ([], [])
  | [c] => if isDigitC c then ([c], []) else ([], [c])
  | c :: c2 :: rest =>
    if isDigitC c then
      if c2 = '_' then
        match rest with
        | [] => ([c], ['_'])
        | d :: _ =>
          if isDigitC d then
            let (ds, rs) := duGo rest
            (c :: ds, rs)
          else ([c], c2 :: rest)
      else if isDigitC c2 then
        let (ds, rs) := duGo (c2 :: rest)
        (c :: ds, rs)
      else ([c], c2 :: rest)
    else ([], c :: c2 :: rest)

/-- Decimal value of a digit list. -/
def parseUIntDigits (ds : List Char) : Nat :=
  ds.foldl (fun a c => a * 10 + (c.toNat - 48)) 0

/-- Strip the whitespace `str.strip()` removes (ASCII set). -/
def pyStripWs (cs : List Char) : List Char :=
  ((cs.dropWhile (fun c => isSpaceC c)).reverse.dropWhile (fun c => isSpaceC c)).reverse

/-- A parsed Python float literal: sign, mantissa digits as a number, count
of fractional digits, signed exponent. Its exact value is
`±mant * 10^ex / 10^fracLen`. -/
structure PyDecimal where
  neg : Bool
  mant : Nat
  fracLen : Nat
  ex : Int
deriving DecidableEq

/-- Parse the numeric-literal grammar accepted by Python `float(...)`. -/
def pyFloatParse (cs0 : List Char) : Option PyDecimal :=
  let cs := pyStripWs cs0
  let sr : Bool × List Char :=
    match cs with
    | '-' :: r => (true, r)
    | '+' :: r => (false, r)
    | r => (false, r)
  let ir := duGo sr.2
  let fr : List Char × List Char :=
    match ir.2 with
    | '.' :: r => duGo r
    | r => ([], r)
  if ir.1.length + fr.1.length = 0 then none
  else
    let mant := parseUIntDigits (ir.1 ++ fr.1)
    match fr.2 with
    | [] => some ⟨sr.1, mant, fr.1.length, 0⟩
    | e :: r =>
      if e = 'e' || e = 'E' then
        let er : Bool × List Char :=
          match r with
          | '-' :: r2 => (true, r2)
          | '+' :: r2 => (false, r2)
          | r2 => (false, r2)
        let edr := duGo er.2
        if edr.1.length = 0 then none
        else
          match edr.2 with
          | [] => some ⟨sr.1, mant, fr.1.length,
              if er.1 then -(parseUIntDigits edr.1 : Int) else (parseUIntDigits edr.1 : Int)⟩
          | _ => none
      else none

/-- Exact rational value of a parsed literal. -/
def pyDecimalValue (d : PyDecimal) : ℚ :=
  (if d.neg then -1 else 1) * (d.mant : ℚ) * (10 : ℚ) ^ d.ex / (10 : ℚ) ^ d.fracLen

/-- The range test `0 < x <= 50000` of the source, decided in integer
arithmetic; `validRange_iff` shows it agrees with the rational comparison. -/
def validRange (d : PyDecimal) : Bool :=
  if d.neg then false
  else if d.mant = 0 then false
  else
    match d.ex with
    | .ofNat e => d.mant * 10 ^ e ≤ 50000 * 10 ^ d.fracLen
    | .negSucc e => d.mant ≤ 50000 * 10 ^ d.fracLen * 10 ^ (e + 1)

/-- `amount.replace('$', '').replace(',', '')` from the source. -/
def stripDollarComma (s : String) : List Char :=
  (s.data.filter (fun c => c ≠ '$')).filter (fun c => c ≠ ',')

/-- `validate_payment_amount` from `agent.py`. -/
def validate_payment_amount (amount : String) : Bool :=
  match pyFloatParse (stripDollarComma amount) with
  | none => false
  | some d => validRange d

example : validate_payment_amount "$150" = true := by decide
example : validate_payment_amount "$0" = false := by decide
example : validate_payment_amount "50000.01" = false := by decide
example : validate_payment_amount "abc" = false := by decide
example : validate_payment_amount "$50,000" = true := by decide
example : validate_payment_amount "1e4" = true := by decide
example : validate_payment_amount "  150  " = true := by decide
example : validate_payment_amount "-5" = false := by decide

theorem validRange_iff (d : PyDecimal) :
    validRange d = true ↔ 0 < pyDecimalValue d ∧ pyDecimalValue d ≤ 50000 := by
  obtain ⟨neg, mant, f, ex⟩ := d
  cases neg with
  | true =>
    have hv : pyDecimalValue ⟨true, mant, f, ex⟩ ≤ 0 := by
      have h1 : (0:ℚ) ≤ (mant : ℚ) * (10:ℚ) ^ ex / (10:ℚ) ^ (f:ℕ) := by positivity
      have h2 : pyDecimalValue ⟨true, mant, f, ex⟩ =
          -((mant : ℚ) * (10:ℚ) ^ ex / (10:ℚ) ^ f) := by
        simp only [pyDecimalValue, reduceIte]
        ring
      rw [h2]
      linarith
    have hvr : validRange ⟨true, mant, f, ex⟩ = false := by simp [validRange]
    rw [hvr]
    constructor
    · intro h; exact absurd h (by simp)
    · rintro ⟨h1, _⟩; exact absurd (lt_of_lt_of_le h1 hv) (by simp)
  | false =>
    have hval : pyDecimalValue ⟨false, mant, f, ex⟩ = (mant : ℚ) * (10:ℚ) ^ ex / (10:ℚ) ^ f := by
      simp only [pyDecimalValue, Bool.false_eq_true, if_false]
      ring
    rcases Nat.eq_zero_or_pos mant with hm | hm
    · subst hm
      have hv0 : pyDecimalValue ⟨false, 0, f, ex⟩ = 0 := by
        rw [hval]
        norm_num
      simp [validRange, hv0]
    · have hvpos : 0 < pyDecimalValue ⟨false, mant, f, ex⟩ := by
        rw [hval]
        have hq : (0:ℚ) < (mant:ℚ) := by exact_mod_cast hm
        positivity
      cases ex with
      | ofNat e =>
        have key : pyDecimalValue ⟨false, mant, f, .ofNat e⟩ ≤ 50000 ↔
            mant * 10 ^ e ≤ 50000 * 10 ^ f := by
          rw [hval, div_le_iff (by positivity)]
          rw [show ((Int.ofNat e : ℤ)) = (e : ℤ) from rfl, zpow_natCast]
          constructor
          · intro h; exact_mod_cast h
          · intro h; exact_mod_cast h
        have hvr : validRange ⟨false, mant, f, .ofNat e⟩ =
            decide (mant * 10 ^ e ≤ 50000 * 10 ^ f) := by
          simp [validRange, hm.ne']
        rw [hvr, decide_eq_true_iff]
        constructor
        · intro hle; exact ⟨hvpos, key.mpr hle⟩
        · rintro ⟨_, hle⟩; exact key.mp hle
      | negSucc e =>
        have key : pyDecimalValue ⟨false, mant, f, .negSucc e⟩ ≤ 50000 ↔
            mant ≤ 50000 * 10 ^ f * 10 ^ (e + 1) := by
          rw [hval, zpow_negSucc]
          have hrw : (mant:ℚ) * ((10:ℚ) ^ (e+1))⁻¹ / (10:ℚ) ^ f =
              (mant:ℚ) / ((10:ℚ) ^ f * (10:ℚ) ^ (e+1)) := by ring
          rw [hrw, div_le_iff (by positivity)]
          constructor
          · intro h
            have h2 := h.trans_eq (by ring : (50000:ℚ) * ((10:ℚ) ^ f * (10:ℚ) ^ (e+1)) =
              50000 * (10:ℚ) ^ f * (10:ℚ) ^ (e+1))
            exact_mod_cast h2
          · intro h
            have h2 : (mant:ℚ) ≤ 50000 * (10:ℚ) ^ f * (10:ℚ) ^ (e+1) := by exact_mod_cast h
            exact h2.trans_eq (by ring)
        have hvr : validRange ⟨false, mant, f, .negSucc e⟩ =
            decide (mant ≤ 50000 * 10 ^ f * 10 ^ (e + 1)) := by
          simp [validRange, hm.ne']
        rw [hvr, decide_eq_true_iff]
        constructor
        · intro hle; exact ⟨hvpos, key.mpr hle⟩
        · rintro ⟨_, hle⟩; exact key.mp hle

/-- Body of `\d{n}` matched against a whole string. -/
def digitsBody (n : Nat) (cs : List Char) : Bool :=
  cs.length == n && cs.all isDigitC

/-- `re.match(r'^\d{n}$', s)` (with Python's trailing-newline `$`). -/
def pyMatchDigits (n : Nat) (s : String) : Bool := pyAnchoredMatch (digitsBody n) s

/-- Exactly `n` digits, as the spec words the validation. -/
def specExactlyDigits (n : Nat) (s : String) : Bool := digitsBody n s.data

example : pyMatchDigits 4 "1234" = true := by decide
example : pyMatchDigits 4 "123" = false := by decide
example : pyMatchDigits 4 "1234\x0a" = true := by decide
example : specExactlyDigits 4 "1234\x0a" = false := by decide
example : pyMatchDigits 5 "90210" = true := by decide

/-! ## The shared call state and the stage machine

`CallState` mirrors the dataclass field for field (`call_start_time`, a
float timestamp never read by any handler, is carried as a `Nat`).
Each transition handler is a function from the state (plus its string
arguments) to the updated state and an optional successor stage; `none`
means the conversation stays on the current stage.  `process_payment`
reads the wall clock, passed in as the Unix-seconds argument `now`. -/

/-- The conversation stages ("agents"). -/
inductive Stage where
  | greeting
  | paymentInquiry
  | questionHandler
  | objectionHandler
  | paymentProcessing
  | goodbye
deriving DecidableEq

/-- The `CallState` dataclass of `agent.py`. -/
structure CallState where
  customer_name : Option String := none
  phone_number : Option String := none
  is_interested : Bool := false
  payment_amount : Option String := none
  payment_method : Option String := none
  last_four_digits : Option String := none
  billing_zip : Option String := none
  due_date : Option String := none
  current_balance : Option String := none
  objections : List String := []
  has_overdue_balance : Bool := false
  call_start_time : Nat := 0
  interaction_count : Nat := 0
  payment_confirmed : Bool := false
  confirmation_number : Option String := none
deriving DecidableEq

/-- Python truthiness of an `Optional[str]`: `None` and `""` are falsy. -/
def pyTruthy : Option String → Bool
  | none => false
  | some t => !(t == "")

/-! ### Greeting stage handlers -/

def customer_confirmed_identity (s : CallState) (customer_name : String) :
    CallState × Option Stage :=
  ({ s with customer_name := some customer_name,
            interaction_count := s.interaction_count + 1 }, none)

def proceed_to_payment_inquiry (s : CallState) : CallState × Option Stage :=
  ({ s with interaction_count := s.interaction_count + 1 }, some .paymentInquiry)

/-- `end_call`: identical in every non-terminal stage — no state change, no
`interaction_count` increment, hands over to the Goodbye stage. -/
def end_call (s : CallState) : CallState × Option Stage :=
  (s, some .goodbye)

/-! ### PaymentInquiry stage handlers -/

def customer_wants_to_pay (s : CallState)
    (payment_amount due_date current_balance : String) : CallState × Option Stage :=
  if !validate_payment_amount payment_amount then (s, none)
  else
    ({ s with is_interested := true,
              payment_amount := some payment_amount,
              due_date := some due_date,
              current_balance := some current_balance,
              interaction_count := s.interaction_count + 1 }, some .paymentProcessing)

def customer_has_question (s : CallState) (question_type : String) :
    CallState × Option Stage :=
  ({ s with interaction_count := s.interaction_count + 1 }, some .questionHandler)

def customer_not_interested (s : CallState) (reason : String) : CallState × Option Stage :=
  ({ s with interaction_count := s.interaction_count + 1 }, some .goodbye)

def customer_has_objection (s : CallState) (objection : String) : CallState × Option Stage :=
  ({ s with objections := s.objections ++ [objection],
            interaction_count := s.interaction_count + 1 }, some .objectionHandler)

def customer_needs_balance_info (s : CallState) : CallState × Option Stage :=
  ({ s with interaction_count := s.interaction_count + 1 }, some .questionHandler)

/-! ### QuestionHandler stage handlers -/

def question_answered_proceed_to_payment (s : CallState) : CallState × Option Stage :=
  ({ s with interaction_count := s.interaction_count + 1 }, some .paymentInquiry)

def customer_has_more_questions (s : CallState) : CallState × Option Stage :=
  ({ s with interaction_count := s.interaction_count + 1 }, none)

/-! ### ObjectionHandler stage handlers -/

def objection_resolved (s : CallState) : CallState × Option Stage :=
  ({ s with interaction_count := s.interaction_count + 1 }, some .paymentInquiry)

def offer_alternative_solution (s : CallState) (solution_type : String) :
    CallState × Option Stage :=
  ({ s with interaction_count := s.interaction_count + 1 }, some .paymentInquiry)

/-! ### PaymentProcessing stage handlers -/

def verify_customer_info (s : CallState) (last_four_digits billing_zip : String) :
    CallState × Option Stage :=
  if !pyMatchDigits 4 last_four_digits then (s, none)
  else if !pyMatchDigits 5 billing_zip then (s, none)
  else
    ({ s with last_four_digits := some last_four_digits,
              billing_zip := some billing_zip,
              interaction_count := s.interaction_count + 1 }, none)

/-! ## Confirmation number (`f"SC{time.strftime('%Y%m%d')}{str(int(time.time()))[-4:]}"`)

The wall clock is passed in explicitly as `now` (Unix seconds).
`natToString` renders a natural in decimal like Python `str`; `zfill`
models the zero padding of `strftime`'s `%Y`/`%m`/`%d`; `pyTakeLast4`
models the slice `[-4:]`. -/

/-- The decimal digit character for `n < 10`. -/
def digitChar (n : Nat) : Char := Char.ofNat (48 + n)

/-- Decimal digits of `n`, least significant first, with explicit fuel. -/
def natDigitsRevF : Nat → Nat → List Char
  | 0, _ => []
  | fuel + 1, n => if n = 0 then [] else digitChar (n % 10) :: natDigitsRevF fuel (n / 10)

/-- Decimal rendering of a natural number (Python `str`). -/
def natToString (n : Nat) : String :=
  if n = 0 then "0" else ⟨(natDigitsRevF (n + 1) n).reverse⟩

/-- Left-pad with `'0'` to width `w` (the zero padding of `strftime`). -/
def zfill (w : Nat) (s : String) : String :=
  ⟨List.replicate (w - s.data.length) '0' ++ s.data⟩

/-- `time.strftime('%Y%m%d')` at Unix time `now`. -/
def strftimeYYYYMMDD (now : Nat) : String :=
  zfill 4 (natToString (civilFromDays (now / 86400)).1) ++
    zfill 2 (natToString (civilFromDays (now / 86400)).2.1) ++
    zfill 2 (natToString (civilFromDays (now / 86400)).2.2)

/-- The Python slice `s[-4:]`. -/
def pyTakeLast4 (s : String) : String := ⟨s.data.drop (s.data.length - 4)⟩

/-- The confirmation number generated by `process_payment` at time `now`. -/
def confirmation_of (now : Nat) : String :=
  "SC" ++ strftimeYYYYMMDD now ++ pyTakeLast4 (natToString now)

example : confirmation_of 1705395661 = "SC202401165661" := by decide

def process_payment (s : CallState) (payment_method : String) (now : Nat) :
    CallState × Option Stage :=
  if !pyTruthy s.last_four_digits || !pyTruthy s.billing_zip then (s, none)
  else
    ({ s with payment_method := some payment_method,
              payment_confirmed := true,
              confirmation_number := some (confirmation_of now),
              interaction_count := s.interaction_count + 1 }, some .goodbye)

def payment_failed (s : CallState) (reason : String) : CallState × Option Stage :=
  ({ s with interaction_count := s.interaction_count + 1 }, some .objectionHandler)

def customer_wants_different_amount (s : CallState) (new_amount : String) :
    CallState × Option Stage :=
  if !validate_payment_amount new_amount then (s, none)
  else
    ({ s with payment_amount := some new_amount,
              interaction_count := s.interaction_count + 1 }, none)

/-- Greeting: answering-machine path — message, then hangup; no state change. -/
def detected_answering_machine (s : CallState) : CallState × Option Stage := (s, none)

/-- Greeting: callback request — message, then hangup; no state change. -/
def customer_requests_callback (s : CallState) (preferred_time : String) :
    CallState × Option Stage := (s, none)

/-! ### The transition table -/

/-- The tools the language-model layer can invoke, with their arguments;
`process_payment` additionally carries the wall-clock reading. -/
inductive ToolCall where
  | detected_answering_machine
  | customer_confirmed_identity (customer_name : String)
  | proceed_to_payment_inquiry
  | customer_requests_callback (preferred_time : String)
  | end_call
  | customer_wants_to_pay (payment_amount due_date current_balance : String)
  | customer_has_question (question_type : String)
  | customer_not_interested (reason : String)
  | customer_has_objection (objection : String)
  | customer_needs_balance_info
  | question_answered_proceed_to_payment
  | customer_has_more_questions
  | objection_resolved
  | offer_alternative_solution (solution_type : String)
  | verify_customer_info (last_four_digits billing_zip : String)
  | process_payment (payment_method : String) (now : Nat)
  | payment_failed (reason : String)
  | customer_wants_different_amount (new_amount : String)

/-- Which stage exposes which tool, and what the invocation does:
`none` when the stage does not expose the tool. -/
def dispatch : Stage → ToolCall → CallState → Option (CallState × Option Stage)
  | .greeting, .detected_answering_machine, s => some (detected_answering_machine s)
  | .greeting, .customer_confirmed_identity n, s => some (customer_confirmed_identity s n)
  | .greeting, .proceed_to_payment_inquiry, s => some (proceed_to_payment_inquiry s)
  | .greeting, .customer_requests_callback t, s => some (customer_requests_callback s t)
  | .greeting, .end_call, s => some (end_call s)
  | .paymentInquiry, .customer_wants_to_pay a d c, s => some (customer_wants_to_pay s a d c)
  | .paymentInquiry, .customer_has_question q, s => some (customer_has_question s q)
  | .paymentInquiry, .customer_not_interested r, s => some (customer_not_interested s r)
  | .paymentInquiry, .customer_has_objection o, s => some (customer_has_objection s o)
  | .paymentInquiry, .customer_needs_balance_info, s => some (customer_needs_balance_info s)
  | .paymentInquiry, .end_call, s => some (end_call s)
  | .questionHandler, .question_answered_proceed_to_payment, s =>
      some (question_answered_proceed_to_payment s)
  | .questionHandler, .customer_has_more_questions, s => some (customer_has_more_questions s)
  | .questionHandler, .end_call, s => some (end_call s)
  | .objectionHandler, .objection_resolved, s => some (objection_resolved s)
  | .objectionHandler, .offer_alternative_solution t, s =>
      some (offer_alternative_solution s t)
  | .objectionHandler, .end_call, s => some (end_call s)
  | .paymentProcessing, .verify_customer_info l z, s => some (verify_customer_info s l z)
  | .paymentProcessing, .process_payment m now, s => some (process_payment s m now)
  | .paymentProcessing, .payment_failed r, s => some (payment_failed s r)
  | .paymentProcessing, .customer_wants_different_amount a, s =>
      some (customer_wants_different_amount s a)
  | .paymentProcessing, .end_call, s => some (end_call s)
  | _, _, _ => none

/-- The configuration after a handler returns: a returned stage becomes
active, otherwise the current stage stays active. -/
def stepCfg (st : Stage) (r : CallState × Option Stage) : Stage × CallState :=
  (r.2.getD st, r.1)

/-- One transition of the conversation: some exposed tool of the active
stage runs on the current state. -/
inductive Step : Stage × CallState → Stage × CallState → Prop where
  | tool (st : Stage) (s : CallState) (tc : ToolCall) (r : CallState × Option Stage)
      (h : dispatch st tc s = some r) : Step (st, s) (stepCfg st r)

/-- The state of a fresh call: only the phone number is populated
(and the start-of-call timestamp is captured). -/
def initState (phone : String) (t : Nat) : CallState :=
  { phone_number := some phone, call_start_time := t }

/-- Configurations reachable from a fresh call at the Greeting stage. -/
def Reachable (phone : String) (t : Nat) (cfg : Stage × CallState) : Prop :=
  Relation.ReflTransGen Step (.greeting, initState phone t) cfg

/-! ## C1: the payment-confirmation invariant -/

/-- The inductive invariant: at PaymentProcessing the payment amount is
always set (the only transition into that stage sets it), and a confirmed
payment has a confirmation number and a payment amount. -/
def CallInv (cfg : Stage × CallState) : Prop :=
  (cfg.1 = Stage.paymentProcessing → cfg.2.payment_amount.isSome = true) ∧
  (cfg.2.payment_confirmed = true →
    cfg.2.confirmation_number.isSome = true ∧ cfg.2.payment_amount.isSome = true)

theorem CallInv_init (phone : String) (t : Nat) : CallInv (.greeting, initState phone t) := by
  constructor <;> simp [initState]

theorem CallInv_step {c c' : Stage × CallState} (h : Step c c') (hi : CallInv c) : CallInv c' := by
  obtain ⟨st, s, tc, r, hd⟩ := h
  cases st <;> cases tc <;> simp only [dispatch] at hd <;>
    first
    | exact Option.noConfusion hd
    | (rw [Option.some.injEq] at hd
       subst hd
       dsimp only [CallInv, stepCfg, customer_confirmed_identity, proceed_to_payment_inquiry,
         end_call, customer_wants_to_pay, customer_has_question, customer_not_interested,
         customer_has_objection, customer_needs_balance_info,
         question_answered_proceed_to_payment, customer_has_more_questions,
         objection_resolved, offer_alternative_solution, verify_customer_info,
         process_payment, payment_failed, customer_wants_different_amount,
         detected_answering_machine, customer_requests_callback] at *
       try split_ifs
       all_goals simp_all)

/-- Reachable configurations satisfy the invariant. -/
theorem reachable_callInv (phone : String) (t : Nat) (cfg : Stage × CallState)
    (h : Reachable phone t cfg) : CallInv cfg := by
  induction h with
  | refl => exact CallInv_init phone t
  | tail hab hbc ih => exact CallInv_step hbc ih

/-- C1: in every CallState reachable from the initial state (only the phone
number populated) by transition-handler invocations along the stage graph,
a confirmed payment has its confirmation number and payment amount set. -/
theorem payment_confirmed_invariant (phone : String) (t : Nat) (cfg : Stage × CallState)
    (h : Reachable phone t cfg) (hc : cfg.2.payment_confirmed = true) :
    cfg.2.confirmation_number.isSome = true ∧ cfg.2.payment_amount.isSome = true :=
  (reachable_callInv phone t cfg h).2 hc

/-- States along a concrete confirmed run: greeting → payment inquiry →
payment processing (amount `$200`) → verification → processed payment. -/
def demoS0 : CallState := initState "+15551234567" 0

def demoS1 : CallState := (proceed_to_payment_inquiry demoS0).1

def demoS2 : CallState := (customer_wants_to_pay demoS1 "$200" "2024-02-01" "").1

def demoS3 : CallState := (verify_customer_info demoS2 "1234" "90210").1

def demoRunCfg : Stage × CallState :=
  stepCfg .paymentProcessing (process_payment demoS3 "debit card" 1705395661)

theorem payment_confirmed_invariant_witness :
    demoRunCfg.2.confirmation_number.isSome = true ∧
      demoRunCfg.2.payment_amount.isSome = true :=
  payment_confirmed_invariant "+15551234567" 0 demoRunCfg
    (by
      have h0 : Reachable "+15551234567" 0 (.greeting, demoS0) :=
        Relation.ReflTransGen.refl
      have h1 : Reachable "+15551234567" 0 (.paymentInquiry, demoS1) :=
        h0.tail (Step.tool .greeting demoS0 .proceed_to_payment_inquiry _ rfl)
      have h2 : Reachable "+15551234567" 0 (.paymentProcessing, demoS2) :=
        h1.tail (Step.tool .paymentInquiry demoS1
          (.customer_wants_to_pay "$200" "2024-02-01" "") _ rfl)
      have h3 : Reachable "+15551234567" 0 (.paymentProcessing, demoS3) :=
        h2.tail (Step.tool .paymentProcessing demoS2
          (.verify_customer_info "1234" "90210") _ rfl)
      exact h3.tail (Step.tool .paymentProcessing demoS3
        (.process_payment "debit card" 1705395661) _ rfl))
    (by decide)

/-- C2 counterexample: `"1234\n"` is not exactly four digits, yet
`verify_customer_info` accepts it — Python's `$` in `^\d{4}$` also matches
just before a trailing newline — and mutates the CallState. -/
theorem verify_customer_info_newline_counterexample :
    specExactlyDigits 4 "1234\x0a" = false ∧
      (verify_customer_info (initState "+15551234567" 0) "1234\x0a" "90210").1 ≠
        initState "+15551234567" 0 := by
  constructor
  · decide
  · decide

/-- C2 (amended): with the validations as implemented — `validate_payment_amount`
for amounts, and the anchored 4/5-digit patterns, which also accept a single
trailing newline — a handler invoked with an argument failing its validation
leaves every field of the CallState unchanged and returns no successor stage. -/
theorem invalid_args_leave_state_unchanged (s : CallState) :
    (∀ a d c, validate_payment_amount a = false → customer_wants_to_pay s a d c = (s, none)) ∧
    (∀ l z, pyMatchDigits 4 l = false → verify_customer_info s l z = (s, none)) ∧
    (∀ l z, pyMatchDigits 4 l = true → pyMatchDigits 5 z = false →
      verify_customer_info s l z = (s, none)) ∧
    (∀ a, validate_payment_amount a = false →
      customer_wants_different_amount s a = (s, none)) := by
  refine ⟨fun a d c h => ?_, fun l z h => ?_, fun l z h1 h2 => ?_, fun a h => ?_⟩
  · simp [customer_wants_to_pay, h]
  · simp [verify_customer_info, h]
  · simp [verify_customer_info, h1, h2]
  · simp [customer_wants_different_amount, h]

theorem invalid_args_leave_state_unchanged_witness :
    customer_wants_to_pay (initState "+15551234567" 0) "abc" "" "" =
      (initState "+15551234567" 0, none) ∧
    verify_customer_info (initState "+15551234567" 0) "12ab" "90210" =
      (initState "+15551234567" 0, none) ∧
    verify_customer_info (initState "+15551234567" 0) "1234" "9021" =
      (initState "+15551234567" 0, none) ∧
    customer_wants_different_amount (initState "+15551234567" 0) "$0" =
      (initState "+15551234567" 0, none) :=
  ⟨(invalid_args_leave_state_unchanged _).1 "abc" "" "" (by decide),
   (invalid_args_leave_state_unchanged _).2.1 "12ab" "90210" (by decide),
   (invalid_args_leave_state_unchanged _).2.2.1 "1234" "9021" (by decide) (by decide),
   (invalid_args_leave_state_unchanged _).2.2.2 "$0" (by decide)⟩

/-- C7: `process_payment` refuses and leaves the state unchanged when the
card digits or the ZIP are unset, and confirms the payment and hands over to
Goodbye when both are set with values that passed `verify_customer_info`'s
format validation. -/
theorem process_payment_requires_verification (s : CallState) (m : String) (now : Nat) :
    ((s.last_four_digits = none ∨ s.billing_zip = none) →
      process_payment s m now = (s, none)) ∧
    (∀ l z, s.last_four_digits = some l → s.billing_zip = some z →
      pyMatchDigits 4 l = true → pyMatchDigits 5 z = true →
      process_payment s m now =
        ({ s with payment_method := some m, payment_confirmed := true,
                  confirmation_number := some (confirmation_of now),
                  interaction_count := s.interaction_count + 1 }, some .goodbye)) := by
  constructor
  · rintro (h | h) <;> simp [process_payment, pyTruthy, h]
  · intro l z hl hz h4 h5
    have hlne : l ≠ "" := by
      intro he
      rw [he] at h4
      exact absurd h4 (by decide)
    have hzne : z ≠ "" := by
      intro he
      rw [he] at h5
      exact absurd h5 (by decide)
    simp [process_payment, pyTruthy, hl, hz, hlne, hzne]

theorem process_payment_requires_verification_witness :
    process_payment (initState "+15551234567" 0) "debit card" 1705395661 =
      (initState "+15551234567" 0, none) ∧
    process_payment demoS3 "debit card" 1705395661 =
      ({ demoS3 with payment_method := some "debit card", payment_confirmed := true,
                     confirmation_number := some (confirmation_of 1705395661),
                     interaction_count := demoS3.interaction_count + 1 }, some .goodbye) :=
  ⟨(process_payment_requires_verification (initState "+15551234567" 0)
      "debit card" 1705395661).1 (Or.inl rfl),
   (process_payment_requires_verification demoS3 "debit card" 1705395661).2
      "1234" "90210" rfl rfl (by decide) (by decide)⟩

/-- C9: `customer_has_objection` appends exactly the raised objection to the
end of `objections` (prior entries preserved in order) and hands over to
ObjectionHandler; a subsequent `objection_resolved` returns to
PaymentInquiry with `objections` unchanged (one objection leaves length 1). -/
theorem objection_round_trip (s : CallState) (o : String) :
    (customer_has_objection s o).1.objections = s.objections ++ [o] ∧
    (customer_has_objection s o).2 = some .objectionHandler ∧
    (objection_resolved (customer_has_objection s o).1).1.objections =
      s.objections ++ [o] ∧
    (objection_resolved (customer_has_objection s o).1).2 = some .paymentInquiry ∧
    (objection_resolved (customer_has_objection s o).1).1.objections.length =
      s.objections.length + 1 := by
  refine ⟨rfl, rfl, rfl, rfl, ?_⟩
  simp [customer_has_objection, objection_resolved]

/-- C10: every stage except Goodbye exposes `end_call`; invoking it returns
Goodbye as the successor stage and leaves every field of the CallState
unchanged — including `interaction_count`, which `end_call` does not
increment. -/
theorem end_call_reaches_goodbye (st : Stage) (h : st ≠ .goodbye) (s : CallState) :
    dispatch st .end_call s = some (s, some .goodbye) := by
  cases st <;> first | rfl | exact absurd rfl h

theorem end_call_reaches_goodbye_witness :
    dispatch .greeting .end_call (initState "+15551234567" 0) =
      some (initState "+15551234567" 0, some .goodbye) :=
  end_call_reaches_goodbye .greeting (by decide) (initState "+15551234567" 0)

/-! ## Shape of the confirmation number -/

theorem isDigitC_digitChar {m : Nat} (h : m < 10) : isDigitC (digitChar m) = true := by
  interval_cases m <;> decide

theorem natDigitsRevF_length_le {k : Nat} : ∀ {n f : Nat}, n < 10 ^ k → n < f →
    (natDigitsRevF f n).length ≤ k := by
  induction k with
  | zero =>
    intro n f hk hf
    have h0 : n = 0 := by simpa using hk
    subst h0
    cases f with
    | zero => simp [natDigitsRevF]
    | succ f => simp [natDigitsRevF]
  | succ k ih =>
    intro n f hk hf
    cases f with
    | zero => omega
    | succ f =>
      simp only [natDigitsRevF]
      split
      · simp
      · rename_i hne
        simp only [List.length_cons]
        have hdiv : n / 10 < 10 ^ k := by
          rw [Nat.div_lt_iff_lt_mul (by norm_num : 0 < 10)]
          calc n < 10 ^ (k + 1) := hk
            _ = 10 ^ k * 10 := by ring
        have := ih hdiv (show n / 10 < f by omega)
        omega

theorem natDigitsRevF_length_ge {k : Nat} : ∀ {n f : Nat}, 10 ^ k ≤ n → n < f →
    k + 1 ≤ (natDigitsRevF f n).length := by
  induction k with
  | zero =>
    intro n f hk hf
    have h0 : n ≠ 0 := by simpa using Nat.one_le_iff_ne_zero.mp (by simpa using hk)
    cases f with
    | zero => omega
    | succ f => simp [natDigitsRevF, h0]
  | succ k ih =>
    intro n f hk hf
    have h1 : (1:Nat) ≤ 10 ^ (k + 1) := Nat.one_le_pow _ _ (by norm_num)
    have hn : n ≠ 0 := by omega
    cases f with
    | zero => omega
    | succ f =>
      simp only [natDigitsRevF, if_neg hn, List.length_cons]
      have hdiv : 10 ^ k ≤ n / 10 := by
        rw [Nat.le_div_iff_mul_le (by norm_num : 0 < 10)]
        calc 10 ^ k * 10 = 10 ^ (k + 1) := by ring
          _ ≤ n := hk
      have := ih hdiv (show n / 10 < f by omega)
      omega

theorem natDigitsRevF_digits : ∀ {f n : Nat} {c : Char}, c ∈ natDigitsRevF f n →
    isDigitC c = true := by
  intro f
  induction f with
  | zero => intro n c hc; simp [natDigitsRevF] at hc
  | succ f ih =>
    intro n c hc
    simp only [natDigitsRevF] at hc
    split at hc
    · simp at hc
    · rcases List.mem_cons.mp hc with h | h
      · subst h
        exact isDigitC_digitChar (Nat.mod_lt _ (by norm_num))
      · exact ih h

theorem natToString_digits {n : Nat} {c : Char} (hc : c ∈ (natToString n).data) :
    isDigitC c = true := by
  rw [natToString] at hc
  split at hc
  · rw [show ("0" : String).data = ['0'] from rfl] at hc
    have h0 : c = '0' := by simpa using hc
    subst h0
    decide
  · exact natDigitsRevF_digits (List.mem_reverse.mp hc)

theorem natToString_length_le {k n : Nat} (h : n < 10 ^ k) (hk : 1 ≤ k) :
    (natToString n).data.length ≤ k := by
  rw [natToString]
  split
  · simpa using hk
  · rename_i hn
    have := natDigitsRevF_length_le h (show n < n + 1 by omega)
    simpa using this

theorem natToString_length_ge {k n : Nat} (h : 10 ^ k ≤ n) :
    k + 1 ≤ (natToString n).data.length := by
  have h1 : (1:Nat) ≤ 10 ^ k := Nat.one_le_pow _ _ (by norm_num)
  rw [natToString, if_neg (by omega)]
  have := natDigitsRevF_length_ge h (show n < n + 1 by omega)
  simpa using this

theorem zfill_length {w : Nat} {s : String} (h : s.data.length ≤ w) :
    (zfill w s).data.length = w := by
  simp only [zfill, List.length_append, List.length_replicate]
  omega

theorem zfill_digits {w : Nat} {s : String} {c : Char}
    (hd : ∀ x ∈ s.data, isDigitC x = true) (hc : c ∈ (zfill w s).data) :
    isDigitC c = true := by
  simp only [zfill] at hc
  rcases List.mem_append.mp hc with h | h
  · have := List.eq_of_mem_replicate h
    subst this
    decide
  · exact hd c h

theorem pyTakeLast4_length {s : String} (h : 4 ≤ s.data.length) :
    (pyTakeLast4 s).data.length = 4 := by
  simp only [pyTakeLast4, List.length_drop]
  omega

theorem pyTakeLast4_digits {s : String} {c : Char}
    (hd : ∀ x ∈ s.data, isDigitC x = true) (hc : c ∈ (pyTakeLast4 s).data) :
    isDigitC c = true :=
  hd c (List.drop_subset _ _ hc)

theorem string_data_append (a b : String) : (a ++ b).data = a.data ++ b.data := rfl

theorem strftimeYYYYMMDD_shape {now : Nat} (h : now ≤ 240784703999) :
    (strftimeYYYYMMDD now).data.length = 8 ∧
      ∀ c ∈ (strftimeYYYYMMDD now).data, isDigitC c = true := by
  obtain ⟨hy1, hy2, hm, hd⟩ := civilFromDays_digit_bounds (now / 86400) (by omega)
  have hp4 : (10:Nat) ^ 4 = 10000 := by norm_num
  have hp3 : (10:Nat) ^ 3 = 1000 := by norm_num
  have hp2 : (10:Nat) ^ 2 = 100 := by norm_num
  have hylen : (natToString (civilFromDays (now / 86400)).1).data.length = 4 := by
    have hle := natToString_length_le
      (show (civilFromDays (now / 86400)).1 < 10 ^ 4 by omega) (by norm_num)
    have hge := natToString_length_ge
      (show 10 ^ 3 ≤ (civilFromDays (now / 86400)).1 by omega)
    omega
  have hmlen : (natToString (civilFromDays (now / 86400)).2.1).data.length ≤ 2 :=
    natToString_length_le (show (civilFromDays (now / 86400)).2.1 < 10 ^ 2 by omega)
      (by norm_num)
  have hdlen : (natToString (civilFromDays (now / 86400)).2.2).data.length ≤ 2 :=
    natToString_length_le (show (civilFromDays (now / 86400)).2.2 < 10 ^ 2 by omega)
      (by norm_num)
  constructor
  · rw [strftimeYYYYMMDD, string_data_append, string_data_append]
    rw [List.length_append, List.length_append]
    rw [zfill_length (by omega), zfill_length hmlen, zfill_length hdlen]
  · intro c hc
    rw [strftimeYYYYMMDD, string_data_append, string_data_append] at hc
    rcases List.mem_append.mp hc with hc1 | hc1
    · rcases List.mem_append.mp hc1 with hc2 | hc2
      · exact zfill_digits (fun x hx => natToString_digits hx) hc2
      · exact zfill_digits (fun x hx => natToString_digits hx) hc2
    · exact zfill_digits (fun x hx => natToString_digits hx) hc1

/-- The confirmation-number format: `SC`, then 8 digits (the date), then
4 digits (the tail of the timestamp). -/
def conf_shape (s : String) : Bool :=
  match s.data with
  | 'S' :: 'C' :: rest => rest.length == 12 && rest.all isDigitC
  | _ => false

theorem data_SC : ("SC" : String).data = ['S', 'C'] := rfl

theorem cons_cons_append (a b : List Char) :
    (['S', 'C'] ++ a) ++ b = 'S' :: 'C' :: (a ++ b) := by
  simp [List.append_assoc]

theorem confirmation_of_data (now : Nat) : (confirmation_of now).data =
    'S' :: 'C' :: ((strftimeYYYYMMDD now).data ++ (pyTakeLast4 (natToString now)).data) := by
  rw [confirmation_of, string_data_append, string_data_append, data_SC]
  exact cons_cons_append _ _

theorem confirmation_of_shape {now : Nat} (h1 : 1000 ≤ now) (h2 : now ≤ 240784703999) :
    conf_shape (confirmation_of now) = true := by
  have hdata := confirmation_of_data now
  obtain ⟨hslen, hsdig⟩ := strftimeYYYYMMDD_shape h2
  have hp3 : (10:Nat) ^ 3 = 1000 := by norm_num
  have hl4 : (pyTakeLast4 (natToString now)).data.length = 4 := by
    refine pyTakeLast4_length ?_
    have := natToString_length_ge (show 10 ^ 3 ≤ now by omega)
    omega
  simp only [conf_shape, hdata]
  rw [Bool.and_eq_true, List.all_eq_true]
  constructor
  · rw [List.length_append, hslen, hl4]
    rfl
  · intro c hc
    rcases List.mem_append.mp hc with hc1 | hc1
    · exact hsdig c hc1
    · exact pyTakeLast4_digits (fun x hx => natToString_digits hx) hc1

/-- C8: from a fresh CallState, `proceed_to_payment_inquiry` reaches
PaymentInquiry; `customer_wants_to_pay("$200","2024-02-01","")` reaches
PaymentProcessing; `verify_customer_info("1234","90210")` records the card
digits and ZIP; `process_payment("debit card")` confirms the payment,
produces a confirmation number of the form `SC` + 8 digits + 4 digits, and
hands over to Goodbye. -/
theorem end_to_end_payment_scenario (phone : String) (t now : Nat)
    (h1 : 1000 ≤ now) (h2 : now ≤ 240784703999) :
    (proceed_to_payment_inquiry (initState phone t)).2 = some .paymentInquiry ∧
    (customer_wants_to_pay (proceed_to_payment_inquiry (initState phone t)).1
        "$200" "2024-02-01" "").2 = some .paymentProcessing ∧
    (verify_customer_info (customer_wants_to_pay
        (proceed_to_payment_inquiry (initState phone t)).1 "$200" "2024-02-01" "").1
        "1234" "90210").1.last_four_digits = some "1234" ∧
    (verify_customer_info (customer_wants_to_pay
        (proceed_to_payment_inquiry (initState phone t)).1 "$200" "2024-02-01" "").1
        "1234" "90210").1.billing_zip = some "90210" ∧
    (process_payment (verify_customer_info (customer_wants_to_pay
        (proceed_to_payment_inquiry (initState phone t)).1 "$200" "2024-02-01" "").1
        "1234" "90210").1 "debit card" now).1.payment_confirmed = true ∧
    (process_payment (verify_customer_info (customer_wants_to_pay
        (proceed_to_payment_inquiry (initState phone t)).1 "$200" "2024-02-01" "").1
        "1234" "90210").1 "debit card" now).1.confirmation_number =
      some (confirmation_of now) ∧
    conf_shape (confirmation_of now) = true ∧
    (process_payment (verify_customer_info (customer_wants_to_pay
        (proceed_to_payment_inquiry (initState phone t)).1 "$200" "2024-02-01" "").1
        "1234" "90210").1 "debit card" now).2 = some .goodbye :=
  ⟨rfl, rfl, rfl, rfl, rfl, rfl, confirmation_of_shape h1 h2, rfl⟩

theorem end_to_end_payment_scenario_witness :
    (proceed_to_payment_inquiry (initState "+15551234567" 0)).2 = some .paymentInquiry ∧
    (customer_wants_to_pay (proceed_to_payment_inquiry (initState "+15551234567" 0)).1
        "$200" "2024-02-01" "").2 = some .paymentProcessing ∧
    (verify_customer_info (customer_wants_to_pay
        (proceed_to_payment_inquiry (initState "+15551234567" 0)).1 "$200" "2024-02-01" "").1
        "1234" "90210").1.last_four_digits = some "1234" ∧
    (verify_customer_info (customer_wants_to_pay
        (proceed_to_payment_inquiry (initState "+15551234567" 0)).1 "$200" "2024-02-01" "").1
        "1234" "90210").1.billing_zip = some "90210" ∧
    (process_payment (verify_customer_info (customer_wants_to_pay
        (proceed_to_payment_inquiry (initState "+15551234567" 0)).1 "$200" "2024-02-01" "").1
        "1234" "90210").1 "debit card" 1705395661).1.payment_confirmed = true ∧
    (process_payment (verify_customer_info (customer_wants_to_pay
        (proceed_to_payment_inquiry (initState "+15551234567" 0)).1 "$200" "2024-02-01" "").1
        "1234" "90210").1 "debit card" 1705395661).1.confirmation_number =
      some (confirmation_of 1705395661) ∧
    conf_shape (confirmation_of 1705395661) = true ∧
    (process_payment (verify_customer_info (customer_wants_to_pay
        (proceed_to_payment_inquiry (initState "+15551234567" 0)).1 "$200" "2024-02-01" "").1
        "1234" "90210").1 "debit card" 1705395661).2 = some .goodbye :=
  end_to_end_payment_scenario "+15551234567" 0 1705395661 (by decide) (by decide)

/-! ## Retry wrappers (`hangup_call_with_retry`, `create_sip_participant_with_retry`)

The loop shape of the two wrappers is identical — `for attempt in
range(max_retries)`: try the action; on success return; on failure sleep
`2 ** attempt` if attempts remain, else handle the final failure — so both
are instances of `retryGo`, differing only in the outcome values.  The
external action is abstracted by `succ : Nat → Bool` (does the attempt with
the given index succeed).  The result is (number of invocations of the
action, the backoff sleeps in order, the outcome). -/

def retryGo (succ : Nat → Bool) (ok fail noRun : α) : Nat → Nat → Nat × List Nat × α
  | _, 0 => (0, [], noRun)
  | attempt, remaining + 1 =>
    if succ attempt then (1, [], ok)
    else if 0 < remaining then
      ((retryGo succ ok fail noRun (attempt + 1) remaining).1 + 1,
        2 ^ attempt :: (retryGo succ ok fail noRun (attempt + 1) remaining).2.1,
        (retryGo succ ok fail noRun (attempt + 1) remaining).2.2)
    else (1, [], fail)

/-- `hangup_call_with_retry`: outcome `true` iff some attempt deleted the
room; a final failure is only logged — the function always returns
normally. -/
def hangup_call_with_retry (succ : Nat → Bool) (max_retries : Nat) :
    Nat × List Nat × Bool :=
  retryGo succ true false false 0 max_retries

/-- `create_sip_participant_with_retry`: outcome `some (.ok identity)` when
an attempt is answered (the participant identity is the phone number),
`some (.error ())` when the last attempt fails and the `TwirpError` is
re-raised; `none` only when the loop body never runs (`max_retries = 0`). -/
def create_sip_participant_with_retry (succ : Nat → Bool) (phone : String)
    (max_retries : Nat) : Nat × List Nat × Option (Except Unit String) :=
  retryGo succ (some (.ok phone)) (some (.error ())) none 0 max_retries

theorem retryGo_succeeds {α : Type} (succ : Nat → Bool) (ok fail noRun : α) (k : Nat) :
    ∀ attempt remaining, k < remaining → (∀ i, i < k → succ (attempt + i) = false) →
      succ (attempt + k) = true →
      retryGo succ ok fail noRun attempt remaining =
        (k + 1, (List.range k).map (fun i => 2 ^ (attempt + i)), ok) := by
  induction k with
  | zero =>
    intro a r hr h0 hs
    cases r with
    | zero => omega
    | succ r =>
      simp only [retryGo]
      rw [if_pos (by simpa using hs)]
      simp
  | succ k ih =>
    intro a r hr h0 hs
    cases r with
    | zero => omega
    | succ r =>
      have hfail : succ a = false := by simpa using h0 0 (by omega)
      simp only [retryGo]
      rw [if_neg (by simp [hfail]), if_pos (by omega)]
      rw [ih (a + 1) r (by omega)
        (fun i hi => by
          have h2 : a + 1 + i = a + (i + 1) := by omega
          rw [h2]
          exact h0 (i + 1) (by omega))
        (by
          have h2 : a + 1 + k = a + (k + 1) := by omega
          rw [h2]
          exact hs)]
      have hlist : 2 ^ a :: (List.range k).map (fun i => 2 ^ (a + 1 + i)) =
          (List.range (k + 1)).map (fun i => 2 ^ (a + i)) := by
        rw [List.range_succ_eq_map, List.map_cons, List.map_map]
        congr 1
        refine List.map_congr_left ?_
        intro i hi
        simp only [Function.comp_apply]
        congr 1
        omega
      rw [hlist]

theorem retryGo_all_fail {α : Type} (succ : Nat → Bool) (ok fail noRun : α)
    (h : ∀ i, succ i = false) :
    ∀ remaining attempt, 0 < remaining →
      retryGo succ ok fail noRun attempt remaining =
        (remaining, (List.range (remaining - 1)).map (fun i => 2 ^ (attempt + i)), fail) := by
  intro r
  induction r with
  | zero => intro a hr; omega
  | succ r ih =>
    intro a hr
    simp only [retryGo]
    rw [if_neg (by simp [h a])]
    cases Nat.eq_zero_or_pos r with
    | inl h0 =>
      subst h0
      simp
    | inr h0 =>
      rw [if_pos h0, ih (a + 1) h0]
      have hlist : 2 ^ a :: (List.range (r - 1)).map (fun i => 2 ^ (a + 1 + i)) =
          (List.range (r + 1 - 1)).map (fun i => 2 ^ (a + i)) := by
        rw [show r + 1 - 1 = (r - 1) + 1 by omega]
        rw [List.range_succ_eq_map, List.map_cons, List.map_map]
        congr 1
        refine List.map_congr_left ?_
        intro i hi
        simp only [Function.comp_apply]
        congr 1
        omega
      rw [hlist]

/-- C6: for both retry wrappers, an action failing `k` times then succeeding
(`k` below the attempt cap) is invoked exactly `k + 1` times with the
strictly increasing sleeps `2^0, 2^1, …` between attempts; an action that
always fails is invoked exactly `max_retries` times, and the final failure
is surfaced by the dial wrapper (`.error` re-raised) but swallowed by the
teardown wrapper (normal return, outcome merely `false`). -/
theorem retry_wrappers_spec (succ : Nat → Bool) (phone : String) (k maxr : Nat) :
    (k < maxr → (∀ i, i < k → succ i = false) → succ k = true →
      hangup_call_with_retry succ maxr =
        (k + 1, (List.range k).map (fun i => 2 ^ i), true) ∧
      create_sip_participant_with_retry succ phone maxr =
        (k + 1, (List.range k).map (fun i => 2 ^ i), some (.ok phone)) ∧
      List.Pairwise (· < ·) ((List.range k).map (fun i => (2:Nat) ^ i))) ∧
    ((∀ i, succ i = false) → 0 < maxr →
      hangup_call_with_retry succ maxr =
        (maxr, (List.range (maxr - 1)).map (fun i => 2 ^ i), false) ∧
      create_sip_participant_with_retry succ phone maxr =
        (maxr, (List.range (maxr - 1)).map (fun i => 2 ^ i), some (.error ()))) := by
  have hmap : ∀ m : Nat, (List.range m).map (fun i => (2:Nat) ^ (0 + i)) =
      (List.range m).map (fun i => (2:Nat) ^ i) := by
    intro m
    refine List.map_congr_left ?_
    intro i hi
    simp
  constructor
  · intro hk h0 hs
    refine ⟨?_, ?_, ?_⟩
    · rw [hangup_call_with_retry,
        retryGo_succeeds succ true false false k 0 maxr hk (by simpa using h0) (by simpa using hs),
        hmap]
    · rw [create_sip_participant_with_retry,
        retryGo_succeeds succ _ _ _ k 0 maxr hk (by simpa using h0) (by simpa using hs), hmap]
    · refine List.Pairwise.map _ ?_ (List.pairwise_lt_range k)
      intro a b hab
      exact Nat.pow_lt_pow_right (by norm_num) hab
  · intro hf hm
    refine ⟨?_, ?_⟩
    · rw [hangup_call_with_retry, retryGo_all_fail succ true false false hf maxr 0 hm, hmap]
    · rw [create_sip_participant_with_retry,
        retryGo_all_fail succ _ _ _ hf maxr 0 hm, hmap]

theorem retry_wrappers_spec_witness :
    (hangup_call_with_retry (fun i => decide (i = 2)) 3 = (3, [1, 2], true) ∧
      create_sip_participant_with_retry (fun i => decide (i = 2)) "+15551234567" 3 =
        (3, [1, 2], some (.ok "+15551234567")) ∧
      List.Pairwise (· < ·) ((List.range 2).map (fun i => (2:Nat) ^ i))) ∧
    (hangup_call_with_retry (fun _ => false) 3 = (3, [1, 2], false) ∧
      create_sip_participant_with_retry (fun _ => false) "+15551234567" 3 =
        (3, [1, 2], some (.error ()))) := by
  constructor
  · have h := (retry_wrappers_spec (fun i => decide (i = 2)) "+15551234567" 2 3).1
      (by decide) (by decide) (by decide)
    simpa using h
  · have h := (retry_wrappers_spec (fun _ => false) "+15551234567" 2 3).2
      (fun i => rfl) (by decide)
    simpa using h

/-! ## Log sanitisation (`sanitize_log_data`)

The source applies two `re.sub` substitutions in order:
`\b\d{4}[-\s]?\d{4}[-\s]?\d{4}[-\s]?\d{4}\b` → `****-****-****-****`, then
`\b\d{3}-\d{2}-\d{4}\b` → `***-**-****`.

Both patterns are deterministic on any input (each optional separator
`[-\s]?` is forced: a digit must follow, so the class is consumed exactly
when its character is present), so matching at a position is a function.
`re.sub` scans the original string left to right, replacing each leftmost
match and resuming after it — with `\b` evaluated against the original
characters, for which tracking the word-ness of the previous character
suffices, since the patterns begin and end with `\d`. -/

/-- Consume exactly `n` digits. -/
def takeDigits : Nat → List Char → Option (List Char)
  | 0, cs => some cs
  | _ + 1, [] => none
  | n + 1, c :: cs => if isDigitC c then takeDigits n cs else none

/-- The optional separator `[-\s]?`: consumed exactly when present. -/
def sepOpt : List Char → List Char
  | [] => []
  | c :: cs => if c = '-' || isSpaceC c then cs else c :: cs

/-- Whether the next character is a word character (for the trailing `\b`). -/
def headWord : List Char → Bool
  | [] => false
  | c :: _ => isWordC c

/-- Try the card pattern at the current position; `prevWord` is the
word-ness of the previous character (for the leading `\b`, which, the first
pattern character being `\d`, holds iff the previous character is not a word
character). Returns the suffix after the match. -/
def tryCard (prevWord : Bool) (cs : List Char) : Option (List Char) :=
  if prevWord then none
  else
    match takeDigits 4 cs with
    | none => none
    | some r1 =>
      match takeDigits 4 (sepOpt r1) with
      | none => none
      | some r2 =>
        match takeDigits 4 (sepOpt r2) with
        | none => none
        | some r3 =>
          match takeDigits 4 (sepOpt r3) with
          | none => none
          | some r4 => if headWord r4 then none else some r4

/-- Try the SSN pattern `\b\d{3}-\d{2}-\d{4}\b` at the current position. -/
def trySSN (prevWord : Bool) (cs : List Char) : Option (List Char) :=
  if prevWord then none
  else
    match takeDigits 3 cs with
    | none => none
    | some [] => none
    | some (c1 :: r1) =>
      if c1 = '-' then
        match takeDigits 2 r1 with
        | none => none
        | some [] => none
        | some (c2 :: r2) =>
          if c2 = '-' then
            match takeDigits 4 r2 with
            | none => none
            | some r3 => if headWord r3 then none else some r3
          else none
      else none

/-- One `re.sub` pass: scan left to right, replace each match by the mask
and resume after it (`prevWord` becomes true — a match ends in a digit),
otherwise copy the character. Fuel-driven; `fuel ≥ length` suffices. -/
def subScanF (t : Bool → List Char → Option (List Char)) (mask : List Char) :
    Nat → Bool → List Char → List Char
  | 0, _, cs => cs
  | fuel + 1, prevWord, cs =>
    match t prevWord cs with
    | some rest => mask ++ subScanF t mask fuel true rest
    | none =>
      match cs with
      | [] => []
      | c :: rest => c :: subScanF t mask fuel (isWordC c) rest

def cardMask : List Char := "****-****-****-****".data

def ssnMask : List Char := "***-**-****".data

def subPass (t : Bool → List Char → Option (List Char)) (mask : List Char)
    (cs : List Char) : List Char :=
  subScanF t mask cs.length false cs

/-- `sanitize_log_data` from `agent.py`: the card pass, then the SSN pass. -/
def sanitize_log_data (s : String) : String :=
  ⟨subPass trySSN ssnMask (subPass tryCard cardMask s.data)⟩

/-- Any position where the pattern matches, scanning with the proper
previous-character word-ness. -/
def hasMatch (t : Bool → List Char → Option (List Char)) : Bool → List Char → Bool
  | p, [] => (t p []).isSome
  | p, c :: cs => (t p (c :: cs)).isSome || hasMatch t (isWordC c) cs

example : sanitize_log_data "card 1234-5678-9012-3456." = "card ****-****-****-****." := by
  decide
example : sanitize_log_data "ssn 123-45-6789!" = "ssn ***-**-****!" := by decide
example : sanitize_log_data "a1234567890123456" = "a1234567890123456" := by decide
example : sanitize_log_data "111-22-33331234 5678 9012 3456 x" =
    "111-22-****-****-****-**** 3456 x" := by decide

/-! ### The consumed-text grammars of the two patterns -/

def IsDigits (g : List Char) : Prop := ∀ c ∈ g, isDigitC c = true

/-- What `[-\s]?` can consume. -/
def SepOk (s : List Char) : Prop :=
  s = [] ∨ ∃ c, s = [c] ∧ (c = '-' ∨ isSpaceC c = true)

/-- The text consumed by a card-pattern match. -/
def CardSpec (ds : List Char) : Prop :=
  ∃ g1 s1 g2 s2 g3 s3 g4,
    ds = g1 ++ (s1 ++ (g2 ++ (s2 ++ (g3 ++ (s3 ++ g4))))) ∧
    g1.length = 4 ∧ g2.length = 4 ∧ g3.length = 4 ∧ g4.length = 4 ∧
    IsDigits g1 ∧ IsDigits g2 ∧ IsDigits g3 ∧ IsDigits g4 ∧
    SepOk s1 ∧ SepOk s2 ∧ SepOk s3

/-- The text consumed by an SSN-pattern match. -/
def SSNSpec (ds : List Char) : Prop :=
  ∃ g1 g2 g3,
    ds = g1 ++ ('-' :: (g2 ++ ('-' :: g3))) ∧
    g1.length = 3 ∧ g2.length = 2 ∧ g3.length = 4 ∧
    IsDigits g1 ∧ IsDigits g2 ∧ IsDigits g3

/-- A masking pattern bundled with the facts the substitution proofs use:
`t` matches exactly the decompositions described by `Spec` (at a non-word
boundary, with a trailing non-word check), consumed text starts and ends
with a digit and contains no `'*'`, and the mask starts and ends with `'*'`
and contains no digit. -/
structure RePat where
  t : Bool → List Char → Option (List Char)
  Spec : List Char → Prop
  mask : List Char
  h_iff : ∀ p cs rest, t p cs = some rest ↔
    (p = false ∧ ∃ ds, cs = ds ++ rest ∧ Spec ds ∧ headWord rest = false)
  h_head : ∀ ds, Spec ds → ∃ c ds2, ds = c :: ds2 ∧ isDigitC c = true
  h_last : ∀ ds, Spec ds → ∃ c, ds.getLast? = some c ∧ isDigitC c = true
  h_star : ∀ ds, Spec ds → ∀ c ∈ ds, c ≠ '*'
  h_mask_head : ∃ ms, mask = '*' :: ms
  h_mask_digit : ∀ c ∈ mask, isDigitC c = false
  h_mask_last : mask.getLast? = some '*'

/-! ### Basic character facts -/

theorem digit_not_sep {c : Char} (h : isDigitC c = true) :
    (c = '-' || isSpaceC c) = false := by
  have h45 : c ≠ '-' := by
    intro he
    rw [he] at h
    exact absurd h (by decide)
  have hsp : isSpaceC c = false := by
    by_contra hs
    rw [Bool.not_eq_false] at hs
    have h2 : 48 ≤ c.toNat ∧ c.toNat ≤ 57 := by simpa [isDigitC] using h
    have h3 : ((((c.toNat = 32 ∨ c.toNat = 9) ∨ c.toNat = 10) ∨ c.toNat = 13) ∨
        c.toNat = 11) ∨ c.toNat = 12 := by simpa [isSpaceC] using hs
    omega
  simp [h45, hsp]

theorem digit_ne_star {c : Char} (h : isDigitC c = true) : c ≠ '*' := by
  intro he
  subst he
  exact absurd h (by decide)

theorem sep_ne_star {c : Char} (h : c = '-' ∨ isSpaceC c = true) : c ≠ '*' := by
  intro he
  subst he
  rcases h with h | h
  · exact absurd h (by decide)
  · exact absurd h (by decide)

/-! ### takeDigits and sepOpt, relationally -/

theorem takeDigits_iff : ∀ {n : Nat} {cs r : List Char},
    takeDigits n cs = some r ↔ ∃ g, cs = g ++ r ∧ g.length = n ∧ IsDigits g := by
  intro n
  induction n with
  | zero =>
    intro cs r
    constructor
    · intro h
      have hr : cs = r := by simpa [takeDigits] using h
      exact ⟨[], by simp [hr], rfl, by intro c hc; simp at hc⟩
    · rintro ⟨g, hcs, hlen, hdig⟩
      have hg : g = [] := List.eq_nil_of_length_eq_zero hlen
      subst hg
      rw [List.nil_append] at hcs
      rw [takeDigits, hcs]
  | succ n ih =>
    intro cs r
    constructor
    · intro h
      cases cs with
      | nil => simp [takeDigits] at h
      | cons c cs2 =>
        rw [takeDigits] at h
        split at h
        · rename_i hc
          obtain ⟨g, hcs, hlen, hdig⟩ := ih.mp h
          refine ⟨c :: g, by simp [hcs], by simp [hlen], ?_⟩
          intro x hx
          rcases List.mem_cons.mp hx with hx | hx
          · subst hx; exact hc
          · exact hdig x hx
        · exact absurd h (by simp)
    · rintro ⟨g, hcs, hlen, hdig⟩
      cases g with
      | nil => simp at hlen
      | cons a g2 =>
        have ha : isDigitC a = true := hdig a (List.mem_cons_self a g2)
        rw [List.cons_append] at hcs
        subst hcs
        rw [takeDigits, if_pos ha]
        exact ih.mpr ⟨g2, rfl, by simpa using hlen, fun x hx => hdig x (List.mem_cons_of_mem a hx)⟩

theorem sepOpt_decomp (cs : List Char) : ∃ s, cs = s ++ sepOpt cs ∧ SepOk s := by
  cases cs with
  | nil => exact ⟨[], rfl, Or.inl rfl⟩
  | cons c cs2 =>
    rw [sepOpt]
    split
    · rename_i hc
      have hc2 : c = '-' ∨ isSpaceC c = true := by simpa using hc
      rcases hc2 with h | h
      · exact ⟨[c], rfl, Or.inr ⟨c, rfl, Or.inl h⟩⟩
      · exact ⟨[c], rfl, Or.inr ⟨c, rfl, Or.inr h⟩⟩
    · exact ⟨[], rfl, Or.inl rfl⟩

theorem sepOpt_append {s : List Char} (hs : SepOk s) {d : Char} {td tail : List Char}
    (htail : tail = d :: td) (hd : isDigitC d = true) : sepOpt (s ++ tail) = tail := by
  rcases hs with h | ⟨c, hc, hsep⟩
  · subst h
    rw [List.nil_append, htail, sepOpt, if_neg (by simp [digit_not_sep hd])]
  · subst hc
    rw [List.cons_append, List.nil_append, sepOpt, if_pos ?_]
    rcases hsep with h | h
    · simp [h]
    · simp [h]

theorem list_len2 {α : Type} {l : List α} (h : l.length = 2) : ∃ a b, l = [a, b] := by
  match l, h with
  | [a, b], _ => exact ⟨a, b, rfl⟩

theorem list_len3 {α : Type} {l : List α} (h : l.length = 3) : ∃ a b c, l = [a, b, c] := by
  match l, h with
  | [a, b, c], _ => exact ⟨a, b, c, rfl⟩

theorem list_len4 {α : Type} {l : List α} (h : l.length = 4) :
    ∃ a b c d, l = [a, b, c, d] := by
  match l, h with
  | [a, b, c, d], _ => exact ⟨a, b, c, d, rfl⟩

theorem getLast?_append_right {α : Type} (l1 : List α) {l2 : List α} (h : l2 ≠ []) :
    (l1 ++ l2).getLast? = l2.getLast? := by
  induction l1 with
  | nil => rfl
  | cons a l ih =>
    obtain ⟨b, t, hbt⟩ := List.exists_cons_of_ne_nil (show l ++ l2 ≠ [] by
      intro he
      rcases List.append_eq_nil.mp he with ⟨-, h2⟩
      exact h h2)
    rw [List.cons_append, hbt, List.getLast?_cons_cons, ← hbt, ih]

theorem tryCard_iff (p : Bool) (cs rest : List Char) :
    tryCard p cs = some rest ↔
      (p = false ∧ ∃ ds, cs = ds ++ rest ∧ CardSpec ds ∧ headWord rest = false) := by
  cases p with
  | true => simp [tryCard]
  | false =>
    rw [tryCard, if_neg (by simp)]
    constructor
    · intro h
      refine ⟨rfl, ?_⟩
      split at h
      · exact absurd h (by simp)
      · rename_i r1 h1
        split at h
        · exact absurd h (by simp)
        · rename_i r2 h2
          split at h
          · exact absurd h (by simp)
          · rename_i r3 h3
            split at h
            · exact absurd h (by simp)
            · rename_i r4 h4
              split at h
              · exact absurd h (by simp)
              · rename_i hw
                obtain rfl : r4 = rest := Option.some.inj h
                obtain ⟨g1, e1, l1, d1⟩ := takeDigits_iff.mp h1
                obtain ⟨s1, es1, sok1⟩ := sepOpt_decomp r1
                obtain ⟨g2, e2, l2, d2⟩ := takeDigits_iff.mp h2
                obtain ⟨s2, es2, sok2⟩ := sepOpt_decomp r2
                obtain ⟨g3, e3, l3, d3⟩ := takeDigits_iff.mp h3
                obtain ⟨s3, es3, sok3⟩ := sepOpt_decomp r3
                obtain ⟨g4, e4, l4, d4⟩ := takeDigits_iff.mp h4
                refine ⟨g1 ++ (s1 ++ (g2 ++ (s2 ++ (g3 ++ (s3 ++ g4))))), ?_, ?_, by
                  simpa using hw⟩
                · rw [e1, es1, e2, es2, e3, es3, e4]
                  simp [List.append_assoc]
                · exact ⟨g1, s1, g2, s2, g3, s3, g4, rfl, l1, l2, l3, l4,
                    d1, d2, d3, d4, sok1, sok2, sok3⟩
    · rintro ⟨-, ds, hcs, ⟨g1, s1, g2, s2, g3, s3, g4, hds, l1, l2, l3, l4,
        d1, d2, d3, d4, sok1, sok2, sok3⟩, hw⟩
      obtain ⟨a2, b2, c2, e2, hg2⟩ := list_len4 l2
      obtain ⟨a3, b3, c3, e3, hg3⟩ := list_len4 l3
      obtain ⟨a4, b4, c4, e4, hg4⟩ := list_len4 l4
      have hcs2 : cs = g1 ++ (s1 ++ (g2 ++ (s2 ++ (g3 ++ (s3 ++ (g4 ++ rest)))))) := by
        rw [hcs, hds]
        simp [List.append_assoc]
      rw [hcs2]
      rw [takeDigits_iff.mpr ⟨g1, rfl, l1, d1⟩]
      dsimp only
      rw [sepOpt_append sok1 (show g2 ++ (s2 ++ (g3 ++ (s3 ++ (g4 ++ rest)))) =
        a2 :: (b2 :: c2 :: e2 :: (s2 ++ (g3 ++ (s3 ++ (g4 ++ rest))))) by rw [hg2]; rfl)
        (d2 a2 (by rw [hg2]; exact List.mem_cons_self _ _))]
      rw [takeDigits_iff.mpr ⟨g2, rfl, l2, d2⟩]
      dsimp only
      rw [sepOpt_append sok2 (show g3 ++ (s3 ++ (g4 ++ rest)) =
        a3 :: (b3 :: c3 :: e3 :: (s3 ++ (g4 ++ rest))) by rw [hg3]; rfl)
        (d3 a3 (by rw [hg3]; exact List.mem_cons_self _ _))]
      rw [takeDigits_iff.mpr ⟨g3, rfl, l3, d3⟩]
      dsimp only
      rw [sepOpt_append sok3 (show g4 ++ rest = a4 :: (b4 :: c4 :: e4 :: rest) by
        rw [hg4]; rfl) (d4 a4 (by rw [hg4]; exact List.mem_cons_self _ _))]
      rw [takeDigits_iff.mpr ⟨g4, rfl, l4, d4⟩]
      dsimp only
      simp [hw]

theorem trySSN_iff (p : Bool) (cs rest : List Char) :
    trySSN p cs = some rest ↔
      (p = false ∧ ∃ ds, cs = ds ++ rest ∧ SSNSpec ds ∧ headWord rest = false) := by
  cases p with
  | true => simp [trySSN]
  | false =>
    rw [trySSN, if_neg (by simp)]
    constructor
    · intro h
      refine ⟨rfl, ?_⟩
      split at h
      · exact absurd h (by simp)
      · exact absurd h (by simp)
      · rename_i c1 r1 h1
        split at h
        · rename_i hc1
          subst hc1
          split at h
          · exact absurd h (by simp)
          · exact absurd h (by simp)
          · rename_i c2 r2 h2
            split at h
            · rename_i hc2
              subst hc2
              split at h
              · exact absurd h (by simp)
              · rename_i r3 h3
                split at h
                · exact absurd h (by simp)
                · rename_i hw
                  obtain rfl : r3 = rest := Option.some.inj h
                  obtain ⟨g1, e1, l1, d1⟩ := takeDigits_iff.mp h1
                  obtain ⟨g2, e2, l2, d2⟩ := takeDigits_iff.mp h2
                  obtain ⟨g3, e3, l3, d3⟩ := takeDigits_iff.mp h3
                  refine ⟨g1 ++ ('-' :: (g2 ++ ('-' :: g3))), ?_, ?_, by simpa using hw⟩
                  · rw [e1, e2, e3]
                    simp [List.append_assoc]
                  · exact ⟨g1, g2, g3, rfl, l1, l2, l3, d1, d2, d3⟩
            · exact absurd h (by simp)
        · exact absurd h (by simp)
    · rintro ⟨-, ds, hcs, ⟨g1, g2, g3, hds, l1, l2, l3, d1, d2, d3⟩, hw⟩
      have hcs2 : cs = g1 ++ ('-' :: (g2 ++ ('-' :: (g3 ++ rest)))) := by
        rw [hcs, hds]
        simp [List.append_assoc]
      rw [hcs2]
      rw [takeDigits_iff.mpr ⟨g1, rfl, l1, d1⟩]
      dsimp only
      rw [if_pos rfl]
      rw [takeDigits_iff.mpr ⟨g2, rfl, l2, d2⟩]
      dsimp only
      rw [if_pos rfl]
      rw [takeDigits_iff.mpr ⟨g3, rfl, l3, d3⟩]
      dsimp only
      simp [hw]

def cardPat : RePat where
  t := tryCard
  Spec := CardSpec
  mask := cardMask
  h_iff := tryCard_iff
  h_head := by
    rintro ds ⟨g1, s1, g2, s2, g3, s3, g4, hds, l1, l2, l3, l4, d1, d2, d3, d4, -, -, -⟩
    obtain ⟨a, b, c, d, hg⟩ := list_len4 l1
    refine ⟨a, [b, c, d] ++ (s1 ++ (g2 ++ (s2 ++ (g3 ++ (s3 ++ g4))))), ?_, ?_⟩
    · rw [hds, hg]
      rfl
    · exact d1 a (by rw [hg]; exact List.mem_cons_self _ _)
  h_last := by
    rintro ds ⟨g1, s1, g2, s2, g3, s3, g4, hds, l1, l2, l3, l4, d1, d2, d3, d4, -, -, -⟩
    obtain ⟨a, b, c, d, hg⟩ := list_len4 l4
    have hds2 : ds = (g1 ++ (s1 ++ (g2 ++ (s2 ++ (g3 ++ s3))))) ++ g4 := by
      rw [hds]
      simp [List.append_assoc]
    refine ⟨d, ?_, ?_⟩
    · rw [hds2, getLast?_append_right _ (by rw [hg]; simp), hg]
      rfl
    · exact d4 d (by rw [hg]; simp)
  h_star := by
    rintro ds ⟨g1, s1, g2, s2, g3, s3, g4, hds, l1, l2, l3, l4, d1, d2, d3, d4,
      sok1, sok2, sok3⟩ c hc
    rw [hds] at hc
    have hsep : ∀ s : List Char, SepOk s → c ∈ s → c ≠ '*' := by
      rintro s (rfl | ⟨x, rfl, hx⟩) hcs
      · simp at hcs
      · have : c = x := by simpa using hcs
        subst this
        exact sep_ne_star hx
    rcases List.mem_append.mp hc with h | h
    · exact digit_ne_star (d1 c h)
    · rcases List.mem_append.mp h with h | h
      · exact hsep s1 sok1 h
      · rcases List.mem_append.mp h with h | h
        · exact digit_ne_star (d2 c h)
        · rcases List.mem_append.mp h with h | h
          · exact hsep s2 sok2 h
          · rcases List.mem_append.mp h with h | h
            · exact digit_ne_star (d3 c h)
            · rcases List.mem_append.mp h with h | h
              · exact hsep s3 sok3 h
              · exact digit_ne_star (d4 c h)
  h_mask_head := ⟨"***-****-****-****".data, by decide⟩
  h_mask_digit := by decide
  h_mask_last := by decide

def ssnPat : RePat where
  t := trySSN
  Spec := SSNSpec
  mask := ssnMask
  h_iff := trySSN_iff
  h_head := by
    rintro ds ⟨g1, g2, g3, hds, l1, l2, l3, d1, d2, d3⟩
    obtain ⟨a, b, c, hg⟩ := list_len3 l1
    refine ⟨a, [b, c] ++ ('-' :: (g2 ++ ('-' :: g3))), ?_, ?_⟩
    · rw [hds, hg]
      rfl
    · exact d1 a (by rw [hg]; exact List.mem_cons_self _ _)
  h_last := by
    rintro ds ⟨g1, g2, g3, hds, l1, l2, l3, d1, d2, d3⟩
    obtain ⟨a, b, c, d, hg⟩ := list_len4 l3
    have hds2 : ds = (g1 ++ ('-' :: (g2 ++ ['-']))) ++ g3 := by
      rw [hds]
      simp [List.append_assoc]
    refine ⟨d, ?_, ?_⟩
    · rw [hds2, getLast?_append_right _ (by rw [hg]; simp), hg]
      rfl
    · exact d3 d (by rw [hg]; simp)
  h_star := by
    rintro ds ⟨g1, g2, g3, hds, l1, l2, l3, d1, d2, d3⟩ c hc
    rw [hds] at hc
    rcases List.mem_append.mp hc with h | h
    · exact digit_ne_star (d1 c h)
    · rcases List.mem_cons.mp h with h | h
      · subst h; decide
      · rcases List.mem_append.mp h with h | h
        · exact digit_ne_star (d2 c h)
        · rcases List.mem_cons.mp h with h | h
          · subst h; decide
          · exact digit_ne_star (d3 c h)
  h_mask_head := ⟨"**-**-****".data, by decide⟩
  h_mask_digit := by decide
  h_mask_last := by decide

theorem RePat.t_nil (P : RePat) (p : Bool) : P.t p [] = none := by
  cases h : P.t p [] with
  | none => rfl
  | some r =>
    obtain ⟨-, ds, hds, hspec, -⟩ := (P.h_iff p [] r).mp h
    obtain ⟨c, ds2, hc, -⟩ := P.h_head ds hspec
    rw [hc] at hds
    simp at hds

theorem RePat.t_nondigit (P : RePat) (p : Bool) {c : Char} (cs : List Char)
    (hc : isDigitC c = false) : P.t p (c :: cs) = none := by
  cases h : P.t p (c :: cs) with
  | none => rfl
  | some r =>
    obtain ⟨-, ds, hds, hspec, -⟩ := (P.h_iff _ _ _).mp h
    obtain ⟨d, ds2, hd, hdig⟩ := P.h_head ds hspec
    rw [hd, List.cons_append] at hds
    injection hds with h1 h2
    subst h1
    rw [hdig] at hc
    exact absurd hc (by simp)

theorem RePat.t_true (P : RePat) (cs : List Char) : P.t true cs = none := by
  cases h : P.t true cs with
  | none => rfl
  | some r =>
    obtain ⟨hfalse, -⟩ := (P.h_iff _ _ _).mp h
    exact absurd hfalse (by simp)

/-! ### The substitution relation and its properties -/

/-- Word-ness of the character preceding the continuation after `ds` has
been scanned, starting from previous word-ness `p`. -/
def prevAfter (p : Bool) (ds : List Char) : Bool :=
  match ds.getLast? with
  | some c => isWordC c
  | none => p

theorem prevAfter_nil (p : Bool) : prevAfter p [] = p := rfl

theorem prevAfter_cons (p : Bool) (c : Char) (l : List Char) :
    prevAfter p (c :: l) = prevAfter (isWordC c) l := by
  cases l with
  | nil => rfl
  | cons x xs =>
    obtain ⟨y, hy⟩ : ∃ y, (x :: xs).getLast? = some y := by
      cases hx : (x :: xs).getLast? with
      | none => simp at hx
      | some y => exact ⟨y, rfl⟩
    rw [prevAfter, prevAfter, List.getLast?_cons_cons, hy]

/-- The graph of one `re.sub` pass. -/
inductive SubRel (t : Bool → List Char → Option (List Char)) (mask : List Char) :
    Bool → List Char → List Char → Prop where
  | done (p : Bool) : SubRel t mask p [] []
  | copy (p : Bool) (c : Char) (cs out : List Char) (h : t p (c :: cs) = none)
      (hs : SubRel t mask (isWordC c) cs out) : SubRel t mask p (c :: cs) (c :: out)
  | repl (p : Bool) (cs rest out : List Char) (h : t p cs = some rest)
      (hs : SubRel t mask true rest out) : SubRel t mask p cs (mask ++ out)

theorem bool_or_false {a b : Bool} (h : (a || b) = false) : a = false ∧ b = false := by
  cases a <;> cases b <;> simp_all

theorem subScanF_subRel (P : RePat) : ∀ (fuel : Nat) (p : Bool) (cs : List Char),
    cs.length ≤ fuel → SubRel P.t P.mask p cs (subScanF P.t P.mask fuel p cs) := by
  intro fuel
  induction fuel with
  | zero =>
    intro p cs hl
    have hnil : cs = [] := List.eq_nil_of_length_eq_zero (by omega)
    subst hnil
    exact SubRel.done p
  | succ fuel ih =>
    intro p cs hl
    cases h : P.t p cs with
    | some rest =>
      have hres : subScanF P.t P.mask (fuel + 1) p cs =
          P.mask ++ subScanF P.t P.mask fuel true rest := by
        simp only [subScanF, h]
      rw [hres]
      obtain ⟨-, ds, hds, hspec, -⟩ := (P.h_iff _ _ _).mp h
      obtain ⟨c, ds2, hc, -⟩ := P.h_head ds hspec
      have hlen : rest.length < cs.length := by
        rw [hds, hc]
        simp only [List.length_append, List.length_cons]
        omega
      exact SubRel.repl p cs rest _ h (ih true rest (by omega))
    | none =>
      cases cs with
      | nil =>
        have hres : subScanF P.t P.mask (fuel + 1) p [] = [] := by
          simp only [subScanF, h]
        rw [hres]
        exact SubRel.done p
      | cons c cs2 =>
        have hres : subScanF P.t P.mask (fuel + 1) p (c :: cs2) =
            c :: subScanF P.t P.mask fuel (isWordC c) cs2 := by
          simp only [subScanF, h]
        rw [hres]
        refine SubRel.copy p c cs2 _ h (ih (isWordC c) cs2 ?_)
        have : cs2.length + 1 ≤ fuel + 1 := by simpa using hl
        omega

theorem hasMatch_nil (P : RePat) (p : Bool) : hasMatch P.t p [] = false := by
  simp [hasMatch, P.t_nil]

theorem hasMatch_prev (P : RePat) {l : List Char}
    (hl : ∀ c ∈ l.head?, isDigitC c = false) (p q : Bool) :
    hasMatch P.t p l = hasMatch P.t q l := by
  cases l with
  | nil => rw [hasMatch_nil, hasMatch_nil]
  | cons c cs =>
    have hc : isDigitC c = false := hl c rfl
    show ((P.t p (c :: cs)).isSome || hasMatch P.t (isWordC c) cs) =
      ((P.t q (c :: cs)).isSome || hasMatch P.t (isWordC c) cs)
    rw [P.t_nondigit p cs hc, P.t_nondigit q cs hc]

theorem hasMatch_append_nondigit (P : RePat) :
    ∀ (ms : List Char), (∀ c ∈ ms, isDigitC c = false) → ∀ (p : Bool) (l : List Char),
      hasMatch P.t p (ms ++ l) = hasMatch P.t (prevAfter p ms) l := by
  intro ms
  induction ms with
  | nil =>
    intro _ p l
    rw [prevAfter_nil]
    rfl
  | cons m ms ih =>
    intro hms p l
    have hm : isDigitC m = false := hms m (List.mem_cons_self _ _)
    rw [List.cons_append]
    show ((P.t p (m :: (ms ++ l))).isSome || hasMatch P.t (isWordC m) (ms ++ l)) = _
    rw [P.t_nondigit p (ms ++ l) hm]
    rw [ih (fun c hc => hms c (List.mem_cons_of_mem _ hc)) (isWordC m) l, prevAfter_cons]
    simp

theorem hasMatch_suffix (t : Bool → List Char → Option (List Char)) :
    ∀ (xs : List Char) {p : Bool} {ys : List Char},
      hasMatch t p (xs ++ ys) = false → hasMatch t (prevAfter p xs) ys = false := by
  intro xs
  induction xs with
  | nil =>
    intro p ys h
    rwa [prevAfter_nil]
  | cons x xs ih =>
    intro p ys h
    rw [List.cons_append] at h
    have h' : ((t p (x :: (xs ++ ys))).isSome || hasMatch t (isWordC x) (xs ++ ys)) = false := h
    obtain ⟨-, h2⟩ := bool_or_false h'
    rw [prevAfter_cons]
    exact ih h2

theorem subRel_master (P : RePat) : ∀ {q : Bool} {cs out : List Char},
    SubRel P.t P.mask q cs out → ∀ ds r, out = ds ++ r → (∀ x ∈ ds, x ≠ '*') →
      ∃ cs2, cs = ds ++ cs2 ∧ SubRel P.t P.mask (prevAfter q ds) cs2 r := by
  intro q cs out h
  induction h with
  | done p =>
    intro ds r hout hstar
    obtain ⟨hds, hr⟩ := List.append_eq_nil.mp hout.symm
    subst hds
    subst hr
    exact ⟨[], rfl, SubRel.done p⟩
  | copy p c cs out hnone hs ih =>
    intro ds r hout hstar
    cases ds with
    | nil =>
      refine ⟨c :: cs, rfl, ?_⟩
      rw [prevAfter_nil]
      rw [List.nil_append] at hout
      rw [← hout]
      exact SubRel.copy p c cs out hnone hs
    | cons d ds2 =>
      rw [List.cons_append] at hout
      injection hout with h1 h2
      subst h1
      obtain ⟨cs2, hcs, hsub⟩ := ih ds2 r h2 (fun x hx => hstar x (List.mem_cons_of_mem _ hx))
      refine ⟨cs2, by rw [List.cons_append, hcs], ?_⟩
      rwa [prevAfter_cons]
  | repl p cs rest out hsome hs ih =>
    intro ds r hout hstar
    cases ds with
    | nil =>
      refine ⟨cs, rfl, ?_⟩
      rw [prevAfter_nil]
      rw [List.nil_append] at hout
      rw [← hout]
      exact SubRel.repl p cs rest out hsome hs
    | cons d ds2 =>
      obtain ⟨ms, hm⟩ := P.h_mask_head
      rw [hm, List.cons_append, List.cons_append] at hout
      injection hout with h1 h2
      exact absurd h1.symm (hstar d (List.mem_cons_self _ _))

theorem subRel_true_head (P : RePat) {cs out : List Char}
    (h : SubRel P.t P.mask true cs out) : out.head? = cs.head? := by
  cases h with
  | done => rfl
  | copy p c cs out hnone hs => rfl
  | repl p cs rest out hsome hs =>
    rw [P.t_true] at hsome
    exact absurd hsome (by simp)

theorem prevAfter_of_spec (P : RePat) {ds : List Char} (hspec : P.Spec ds) (p : Bool) :
    prevAfter p ds = true := by
  obtain ⟨e, hlast, hdig⟩ := P.h_last ds hspec
  rw [prevAfter, hlast]
  exact word_of_digit hdig

theorem headWord_transfer {r cs2 : List Char} (hhr : r.head? = cs2.head?)
    (hw : headWord r = false) : headWord cs2 = false := by
  cases cs2 with
  | nil => rfl
  | cons x xs =>
    cases r with
    | nil => simp at hhr
    | cons y ys =>
      have he : y = x := by simpa using hhr
      subst he
      simpa [headWord] using hw

theorem head_nondigit_of_headWord_false {l : List Char} (hw : headWord l = false) :
    ∀ c ∈ l.head?, isDigitC c = false := by
  intro c hc
  cases l with
  | nil => simp at hc
  | cons y ys =>
    have he : y = c := by simpa using hc
    subst he
    exact not_digit_of_not_word (by simpa [headWord] using hw)

theorem prevAfter_mask_false (P : RePat) (p : Bool) : prevAfter p P.mask = false := by
  rw [prevAfter, P.h_mask_last]
  rfl

/-- A pass of `re.sub` never leaves a boundary-delimited match of its own
pattern in its output. -/
theorem subRel_no_match (P : RePat) : ∀ {p : Bool} {cs out : List Char},
    SubRel P.t P.mask p cs out → hasMatch P.t p out = false := by
  intro p cs out h
  induction h with
  | done p => exact hasMatch_nil P p
  | copy p c cs out hnone hs ih =>
    have hhead : (P.t p (c :: out)).isSome = false := by
      cases hsome : P.t p (c :: out) with
      | none => rfl
      | some r =>
        obtain ⟨hp, ds, hds, hspec, hw⟩ := (P.h_iff _ _ _).mp hsome
        subst hp
        obtain ⟨cs2, hcs, hsub⟩ :=
          subRel_master P (SubRel.copy false c cs out hnone hs) ds r hds (P.h_star ds hspec)
        rw [prevAfter_of_spec P hspec false] at hsub
        have hw2 : headWord cs2 = false :=
          headWord_transfer (subRel_true_head P hsub) hw
        have hmt : P.t false (c :: cs) = some cs2 :=
          (P.h_iff _ _ _).mpr ⟨rfl, ds, hcs, hspec, hw2⟩
        rw [hnone] at hmt
        exact absurd hmt (by simp)
    show ((P.t p (c :: out)).isSome || hasMatch P.t (isWordC c) out) = false
    rw [hhead, ih]
    rfl
  | repl p cs rest out hsome hs ih =>
    obtain ⟨hp, ds, hds, hspec, hw⟩ := (P.h_iff _ _ _).mp hsome
    rw [hasMatch_append_nondigit P P.mask P.h_mask_digit p out]
    rw [prevAfter_mask_false P p]
    refine Eq.trans (hasMatch_prev P ?_ false true) ih
    intro e he
    rw [subRel_true_head P hs] at he
    exact head_nondigit_of_headWord_false hw e he

/-- A pass of `re.sub` with pattern `P` does not create a boundary-delimited
match of another digit-anchored pattern `Q` that was absent from its input. -/
theorem subRel_preserve (P Q : RePat) : ∀ {p : Bool} {cs out : List Char},
    SubRel P.t P.mask p cs out → hasMatch Q.t p cs = false →
      hasMatch Q.t p out = false := by
  intro p cs out h
  induction h with
  | done p =>
    intro _
    exact hasMatch_nil Q p
  | copy p c cs out hnone hs ih =>
    intro hfree
    have hfree' : ((Q.t p (c :: cs)).isSome || hasMatch Q.t (isWordC c) cs) = false := hfree
    obtain ⟨hq1, hq2⟩ := bool_or_false hfree'
    have ih2 := ih hq2
    have hhead : (Q.t p (c :: out)).isSome = false := by
      cases hsome : Q.t p (c :: out) with
      | none => rfl
      | some r =>
        obtain ⟨hp, ds, hds, hspec, hw⟩ := (Q.h_iff _ _ _).mp hsome
        subst hp
        obtain ⟨cs2, hcs, hsub⟩ :=
          subRel_master P (SubRel.copy false c cs out hnone hs) ds r hds (Q.h_star ds hspec)
        rw [prevAfter_of_spec Q hspec false] at hsub
        have hw2 : headWord cs2 = false :=
          headWord_transfer (subRel_true_head P hsub) hw
        have hmt : Q.t false (c :: cs) = some cs2 :=
          (Q.h_iff _ _ _).mpr ⟨rfl, ds, hcs, hspec, hw2⟩
        rw [hmt] at hq1
        exact absurd hq1 (by simp)
    show ((Q.t p (c :: out)).isSome || hasMatch Q.t (isWordC c) out) = false
    rw [hhead, ih2]
    rfl
  | repl p cs rest out hsome hs ih =>
    intro hfree
    obtain ⟨hp, ds, hds, hspec, hw⟩ := (P.h_iff _ _ _).mp hsome
    have hsuf : hasMatch Q.t (prevAfter p ds) rest = false := by
      apply hasMatch_suffix Q.t ds
      rw [← hds]
      exact hfree
    rw [prevAfter_of_spec P hspec p] at hsuf
    have ih2 := ih hsuf
    rw [hasMatch_append_nondigit Q P.mask P.h_mask_digit p out]
    rw [prevAfter_mask_false P p]
    refine Eq.trans (hasMatch_prev Q ?_ false true) ih2
    intro e he
    rw [subRel_true_head P hs] at he
    exact head_nondigit_of_headWord_false hw e he

/-- A pass of `re.sub` is the identity on match-free input. -/
theorem subScanF_id (t : Bool → List Char → Option (List Char)) (mask : List Char) :
    ∀ (fuel : Nat) (p : Bool) (cs : List Char), hasMatch t p cs = false →
      subScanF t mask fuel p cs = cs := by
  intro fuel
  induction fuel with
  | zero =>
    intro p cs h
    rfl
  | succ fuel ih =>
    intro p cs h
    cases cs with
    | nil =>
      have h1 : (t p []).isSome = false := h
      have ht : t p [] = none := by
        cases hx : t p [] with
        | none => rfl
        | some r =>
          rw [hx] at h1
          exact absurd h1 (by simp)
      simp only [subScanF, ht]
    | cons c cs2 =>
      have h' : ((t p (c :: cs2)).isSome || hasMatch t (isWordC c) cs2) = false := h
      obtain ⟨h1, h2⟩ := bool_or_false h'
      have ht : t p (c :: cs2) = none := by
        cases hx : t p (c :: cs2) with
        | none => rfl
        | some r =>
          rw [hx] at h1
          exact absurd h1 (by simp)
      simp only [subScanF, ht]
      rw [ih _ cs2 h2]

/-! ### C5: the claim theorems -/

/-- Spec-side reading of "16-digit sequence (grouped in 4s, separators
optional)": four groups of four digits, each adjacent pair separated by an
optional single '-' or whitespace character. -/
def digits4 : List Char → Option (List Char)
  | c1 :: c2 :: c3 :: c4 :: r =>
    if isDigitC c1 && isDigitC c2 && isDigitC c3 && isDigitC c4 then some r else none
  | _ => none

def sepSkip (cs : List Char) : List Char :=
  match cs with
  | c :: r => if c = '-' || isSpaceC c then r else cs
  | [] => []

def groupedCardAt (cs : List Char) : Bool :=
  match digits4 cs with
  | none => false
  | some r1 =>
    match digits4 (sepSkip r1) with
    | none => false
    | some r2 =>
      match digits4 (sepSkip r2) with
      | none => false
      | some r3 => (digits4 (sepSkip r3)).isSome

/-- The string contains a 16-digit grouped sequence at some position. -/
def containsGroupedCard : List Char → Bool
  | [] => false
  | c :: cs => groupedCardAt (c :: cs) || containsGroupedCard cs

/-- C5, counterexample to the claim as stated: `sanitize_log_data` leaves the
string "a1234567890123456" completely unchanged although its output then
contains an unmasked 16-digit sequence (grouped in 4s with the separators
omitted, which the claim says are optional).  The code's regexes require a
word boundary before the first digit, and the preceding 'a' (a word
character) defeats it. -/
theorem sanitize_log_data_counterexample :
    sanitize_log_data "a1234567890123456" = "a1234567890123456" ∧
    containsGroupedCard ("a1234567890123456" : String).data = true := by
  constructor
  · decide
  · decide

/-- C5 (amended): `sanitize_log_data` is idempotent — applying it twice gives
the same string as applying it once — and its output contains no
word-boundary-delimited occurrence of the card pattern (four groups of four
digits with optional single '-'/whitespace separators) and no
word-boundary-delimited occurrence of the SSN pattern (3-2-4 digits with
literal dashes), where an occurrence is scanned exactly as the code's
`\b`-anchored regexes do. -/
theorem sanitize_log_data_spec (s : String) :
    sanitize_log_data (sanitize_log_data s) = sanitize_log_data s ∧
    hasMatch tryCard false (sanitize_log_data s).data = false ∧
    hasMatch trySSN false (sanitize_log_data s).data = false := by
  have hsubW := subScanF_subRel cardPat s.data.length false s.data le_rfl
  have hw_card : hasMatch tryCard false (subPass tryCard cardMask s.data) = false :=
    subRel_no_match cardPat hsubW
  have hsubF := subScanF_subRel ssnPat (subPass tryCard cardMask s.data).length false
    (subPass tryCard cardMask s.data) le_rfl
  have hf_ssn : hasMatch trySSN false
      (subPass trySSN ssnMask (subPass tryCard cardMask s.data)) = false :=
    subRel_no_match ssnPat hsubF
  have hf_card : hasMatch tryCard false
      (subPass trySSN ssnMask (subPass tryCard cardMask s.data)) = false :=
    subRel_preserve ssnPat cardPat hsubF hw_card
  refine ⟨?_, hf_card, hf_ssn⟩
  have e1 : subPass tryCard cardMask
      (subPass trySSN ssnMask (subPass tryCard cardMask s.data)) =
      subPass trySSN ssnMask (subPass tryCard cardMask s.data) :=
    subScanF_id tryCard cardMask _ false _ hf_card
  have e2 : subPass trySSN ssnMask
      (subPass trySSN ssnMask (subPass tryCard cardMask s.data)) =
      subPass trySSN ssnMask (subPass tryCard cardMask s.data) :=
    subScanF_id trySSN ssnMask _ false _ hf_ssn
  show String.mk (subPass trySSN ssnMask (subPass tryCard cardMask
      (subPass trySSN ssnMask (subPass tryCard cardMask s.data)))) =
    String.mk (subPass trySSN ssnMask (subPass tryCard cardMask s.data))
  rw [e1, e2]
